import Mathlib

/-!
Verification of the Utility-Discord-Bot playback-session core and auth middleware.

The development shallowly embeds:
* the play command control flow from src/commands/player/play.ts;
* the auth middleware getUserFromAuthToken from the auth module
  (promise-dedup map, cache, guild filtering);
* the Session, Queue, SessionRegistry, TrackResolutionPipeline and
  ProgressThrottle components, whose implementation files (session.ts,
  sessions.ts, track.ts, youtube.ts and the lodash throttle) are not part of
  the provided sources; those are modelled from the specification.
-/

set_option autoImplicit false

namespace UtilityBot

/-- Track variants, from track.ts as referenced by play.ts
(TWITCH_VOD, YOUTUBE_VOD, YOUTUBE_LIVESTREAM; Spotify links are resolved to
YouTube queries before Track creation). -/
inductive TrackVariant where
  | YOUTUBE_VOD
  | YOUTUBE_LIVESTREAM
  | TWITCH_VOD
  deriving DecidableEq, Repr

/-- A playable unit: a source link plus its variant (metadata is lazily
fetched and not part of the queue-ordering model). -/
structure Track where
  link : String
  variant : TrackVariant
  deriving DecidableEq, Repr

/-- Modelled from the spec: the per-guild Session state machine (session.ts
is not among the provided sources). Fields per spec section 3: a queue of
Tracks, the current-track pointer, and the shuffled and paused flags.
The current track is held separately from the queue of upcoming tracks. -/
structure Session where
  currentTrack : Option Track
  queue : List Track
  shuffled : Bool
  paused : Bool
  deriving DecidableEq, Repr

/-- A Session with nothing playing and an empty queue (Idle state). -/
def emptySession : Session :=
  { currentTrack := none, queue := [], shuffled := false, paused := false }

/-- Read-only accessor for the current track (spec section 4.3). -/
def Session.getCurrentTrack (s : Session) : Option Track :=
  s.currentTrack

/-- Modelled from the spec: Session.enqueue (spec section 4.3). Appends the
given tracks to the queue; with pushToFront they go immediately after the
current-playing position, otherwise at the tail. If nothing was previously
playing, the head of the enqueued tracks becomes current and the rest form
the queue. Returns the updated session and wasAlreadyPlaying. -/
def Session.enqueue (s : Session) (tracks : List Track) (pushToFront : Bool) :
    Session × Bool :=
  match s.currentTrack with
  | some _ =>
    ({ s with queue := if pushToFront then tracks ++ s.queue else s.queue ++ tracks }, true)
  | none =>
    ({ s with currentTrack := tracks.head?, queue := s.queue ++ tracks.tail }, false)

/-- Modelled from the spec: resume clears the paused flag; idempotent
(spec section 4.3). -/
def Session.resume (s : Session) : Session :=
  { s with paused := false }

/-- Modelled from the spec: pause sets the paused flag (spec section 4.3). -/
def Session.pause (s : Session) : Session :=
  { s with paused := true }

/-- Modelled from the spec: Queue.shuffleRemaining permutes all entries
except the one currently playing (spec section 4.2). The random permutation
is passed as a parameter; theorems assume it is a permutation. Since the
current track is held outside the queue of upcoming tracks, only the
upcoming tracks are permuted. -/
def Session.shuffleRemaining (s : Session) (permute : List Track → List Track) : Session :=
  { s with queue := permute s.queue }

/-- Modelled from the spec: Session.shuffle sets the shuffled flag and
invokes Queue.shuffleRemaining (spec section 4.3). -/
def Session.shuffle (s : Session) (permute : List Track → List Track) : Session :=
  { (s.shuffleRemaining permute) with shuffled := true }

/-- The full play order of a session: the current track (if any) followed by
the queue of upcoming tracks. Used to state ordering properties. -/
def Session.fullQueue (s : Session) : List Track :=
  match s.currentTrack with
  | some t => t :: s.queue
  | none => s.queue

/-- A session is well formed when an Idle session (no current track) has an
empty queue; real sessions start empty and enqueue preserves this. -/
def Session.WF (s : Session) : Prop :=
  s.currentTrack = none → s.queue = []

/-- Run a sequence of enqueue operations (tracks, pushToFront), returning
the final session and the list of wasAlreadyPlaying results in order. -/
def runEnqueues (s : Session) : List (List Track × Bool) → Session × List Bool
  | [] => (s, [])
  | (ts, f) :: ops =>
    let step := s.enqueue ts f
    let rest := runEnqueues step.1 ops
    (rest.1, step.2 :: rest.2)

/-- Modelled from the spec: the process-wide SessionRegistry (sessions.ts is
not among the provided sources), a mapping from guild id to Session. -/
structure SessionRegistry where
  sessions : List (String × Session)
  deriving DecidableEq, Repr

/-- Registry lookup by guild id (spec section 4.4). -/
def SessionRegistry.get (r : SessionRegistry) (guildId : String) : Option Session :=
  (r.sessions.find? (fun p => p.1 = guildId)).map (fun p => p.2)

/-- Modelled from the spec: create returns the existing session when one is
already registered for the guild and never registers a second one; otherwise
it registers and returns the fresh session (spec section 4.4). -/
def SessionRegistry.create (r : SessionRegistry) (guildId : String) (fresh : Session) :
    SessionRegistry × Session :=
  match r.get guildId with
  | some s => (r, s)
  | none => ({ sessions := (guildId, fresh) :: r.sessions }, fresh)

/-- Update the session stored for a guild in place (mutation of the session
object held by the registry, as the TypeScript methods do). -/
def SessionRegistry.set (r : SessionRegistry) (guildId : String) (s : Session) :
    SessionRegistry :=
  { sessions := r.sessions.map (fun p => if p.1 = guildId then (guildId, s) else p) }

/-- The inputs of the play command relevant to session management
(play.ts, PlayInputs): the three mutually optional string arguments plus
the front and shuffle flags. -/
structure PlayInputs where
  vodLink : Option String
  streamLink : Option String
  queryStr : Option String
  pushToFront : Bool
  shuffle : Bool
  deriving DecidableEq, Repr

/-- The observable outcome of the modelled play slice: a plain text reply,
or entry into one of the three enqueue branches (vodLink, streamLink,
queryStr), whose internals resolve tracks through the parser modules that
are outside this slice. -/
inductive PlayOutcome where
  | reply (text : String)
  | enqueuePath
  deriving DecidableEq, Repr

/-- The session-management control flow of the play command (play.ts):
count the provided arguments, guard on the resolved user and the voice
channel (presence and joinable), look up the guild session and resume it if
present, reject a zero-argument call with no session, create the session
only when the lookup returned none, shuffle on request, then either enter
an enqueue branch or reply Resumed. The shuffle permutation is a parameter
standing for the random shuffle; the registry is threaded explicitly where
the source mutates the registered session object in place. -/
def play (reg : SessionRegistry) (guildId : String) (hasUser : Bool)
    (voiceChannel : Option (String × Bool)) (inputs : PlayInputs)
    (fresh : Session) (permute : List Track → List Track) :
    SessionRegistry × PlayOutcome :=
  let numArgs := ([inputs.vodLink, inputs.streamLink, inputs.queryStr].filterMap id).length
  if !hasUser then
    (reg, PlayOutcome.reply "Could not resolve user invoking command.")
  else
    match voiceChannel with
    | none => (reg, PlayOutcome.reply "You must be connected to a voice channel.")
    | some (_, joinable) =>
      if !joinable then
        (reg, PlayOutcome.reply "I don\x27t have permission to connect to your voice channel.")
      else
        match reg.get guildId with
        | some s0 =>
          let s1 := s0.resume
          let s2 := if inputs.shuffle then s1.shuffle permute else s1
          let reg1 := reg.set guildId s2
          if inputs.vodLink.isSome then (reg1, PlayOutcome.enqueuePath)
          else if inputs.streamLink.isSome then (reg1, PlayOutcome.enqueuePath)
          else if inputs.queryStr.isSome then (reg1, PlayOutcome.enqueuePath)
          else (reg1, PlayOutcome.reply "Resumed.")
        | none =>
          if numArgs = 0 then
            (reg, PlayOutcome.reply "You must provide at least one argument.")
          else
            let created := reg.create guildId fresh
            let s2 := if inputs.shuffle then created.2.shuffle permute else created.2
            let reg2 := created.1.set guildId s2
            (reg2, PlayOutcome.enqueuePath)

/-- A guild as exposed to API clients (auth module, Guild interface):
id, name and icon. -/
structure Guild where
  id : String
  name : String
  icon : String
  deriving DecidableEq, Repr

/-- A user as exposed to API clients (auth module, User interface):
identity fields plus the list of shared guilds. -/
structure User where
  id : String
  username : String
  discriminator : String
  avatar : String
  guilds : List Guild
  deriving DecidableEq, Repr

/-- The fields of the upstream /users/@me response that the auth module
reads. -/
structure UserData where
  id : String
  username : String
  discriminator : String
  avatar : String
  deriving DecidableEq, Repr

/-- The fields of an entry of the upstream /users/@me/guilds response that
the auth module reads. -/
structure GuildData where
  id : String
  name : String
  icon : String
  deriving DecidableEq, Repr

/-- Association-list lookup (models NodeCache.get and indexing into the
discordPromises object by auth token). -/
def alookup {α : Type} (l : List (String × α)) (k : String) : Option α :=
  (l.find? (fun p => p.1 = k)).map (fun p => p.2)

/-- State of the auth module: the NodeCache of users keyed by auth token,
the shared discordPromises map keyed by auth token (holding the identity of
the stored promise pair), a counter for fresh promise identities, and a
count of upstream Discord request pairs actually issued (the observable for
deduplication claims). -/
structure AuthState where
  cache : List (String × User)
  discordPromises : List (String × Nat)
  nextPromiseId : Nat
  upstreamCalls : Nat
  deriving DecidableEq, Repr

/-- The guarded store into discordPromises (auth module): when no promise
pair is stored for this token, issue the two upstream requests and store
them under the token; otherwise reuse the stored pair. Returns the identity
of the promise pair the caller will await. -/
def ensureDiscordPromises (st : AuthState) (auth : String) : AuthState × Nat :=
  match alookup st.discordPromises auth with
  | some pid => (st, pid)
  | none =>
    ({ st with
        discordPromises := (auth, st.nextPromiseId) :: st.discordPromises,
        nextPromiseId := st.nextPromiseId + 1,
        upstreamCalls := st.upstreamCalls + 1 }, st.nextPromiseId)

/-- The synchronous opening of getUserFromAuthToken, up to the await: a
cache hit returns the cached user; a cache miss ensures the promise pair is
stored and returns the promise identity that will be awaited. -/
def getUserPhase1 (st : AuthState) (auth : String) : AuthState × (User ⊕ Nat) :=
  match alookup st.cache auth with
  | some u => (st, Sum.inl u)
  | none =>
    let r := ensureDiscordPromises st auth
    (r.1, Sum.inr r.2)

/-- Construction of the User value from the two upstream responses (auth
module): guilds are filtered to those present in the bot client guild cache
and projected to id, name, icon. -/
def buildUser (userData : UserData) (guildsData : List GuildData)
    (botGuildIds : List String) : User :=
  { id := userData.id
    username := userData.username
    discriminator := userData.discriminator
    avatar := userData.avatar
    guilds := (guildsData.filter (fun g => botGuildIds.contains g.id)).map
      (fun g => { id := g.id, name := g.name, icon := g.icon }) }

/-- getUserFromAuthToken: cache hit returns the cached user; otherwise the
stored (or freshly stored) promise pair is awaited. A rejected await
propagates the error with no state change: in the source the
discordPromises entry is deleted only after a successful await, on the line
after the cache store. A successful await builds the User, stores it in the
cache and deletes the promise entry. The outcome of awaiting a given
promise pair is the fixed function upstream of its identity. -/
def getUserFromAuthToken (st : AuthState) (auth : String)
    (upstream : Nat → Except Unit (UserData × List GuildData))
    (botGuildIds : List String) : AuthState × Except Unit User :=
  match alookup st.cache auth with
  | some u => (st, Except.ok u)
  | none =>
    let st1 := (ensureDiscordPromises st auth).1
    match upstream (ensureDiscordPromises st auth).2 with
    | Except.error e => (st1, Except.error e)
    | Except.ok data =>
      let user := buildUser data.1 data.2 botGuildIds
      ({ st1 with
          cache := (auth, user) :: st1.cache,
          discordPromises := st1.discordPromises.filter (fun p => ¬(p.1 = auth)) },
        Except.ok user)

/-- The auth-module state at process start: empty cache, no stored
promises. -/
def emptyAuthState : AuthState :=
  { cache := [], discordPromises := [], nextPromiseId := 0, upstreamCalls := 0 }

/-- One progress report of a resolution batch: the resolved count, the
total query count, and whether this is the terminal (completed) report. -/
structure ProgressEvent where
  resolvedCount : Nat
  totalCount : Nat
  completed : Bool
  deriving DecidableEq, Repr

/-- Modelled from the spec: the body of the TrackResolutionPipeline
(getTracksFromQueries of youtube.ts is not among the provided sources).
Queries are resolved in order by the resolve function; a query whose
resolution fails is dropped from the batch and counted, not fatal; each
resolved Track is enqueued to the session at the tail, so completed Tracks
reach the queue in the original query order; after each completion a
progress report with the updated resolved count is issued; after the last
query the terminal report carries completed = true and the final count. -/
def pipelineAux (resolve : String → Option Track) (total : Nat) :
    Session → Nat → List String → Session × Nat × List ProgressEvent
  | s, resolved, [] => (s, resolved, [⟨resolved, total, true⟩])
  | s, resolved, q :: qs =>
    match resolve q with
    | none => pipelineAux resolve total s resolved qs
    | some t =>
      let s1 := (s.enqueue [t] false).1
      let rest := pipelineAux resolve total s1 (resolved + 1) qs
      (rest.1, rest.2.1, ⟨resolved + 1, total, false⟩ :: rest.2.2)

/-- Modelled from the spec: TrackResolutionPipeline.start runs a batch of
queries against a target session, starting from a zero resolved count. -/
def TrackResolutionPipeline.start (resolve : String → Option Track)
    (queries : List String) (s : Session) : Session × Nat × List ProgressEvent :=
  pipelineAux resolve queries.length s 0 queries

/-- Modelled from the spec: the ProgressThrottle state (the throttle wrapper
used by play.ts comes from an external library; the spec describes it as a
stateful component with an explicit pending flag and a guaranteed final
flush): the time of the last outward notification and whether a suppressed
request is pending. -/
structure ThrottleState where
  lastFire : Option Nat
  pending : Bool
  deriving DecidableEq, Repr

/-- The throttle before any notification has fired. -/
def freshThrottle : ThrottleState := { lastFire := none, pending := false }

/-- Modelled from the spec: one progress request arriving at the given
time. If no notification has fired yet, or a full interval has elapsed
since the last one, the notification fires now; otherwise the request is
coalesced into the pending flag and nothing fires. -/
def throttleStep (interval : Nat) (st : ThrottleState) (now : Nat) :
    ThrottleState × Bool :=
  match st.lastFire with
  | none => ({ lastFire := some now, pending := false }, true)
  | some t =>
    if t + interval ≤ now then ({ lastFire := some now, pending := false }, true)
    else ({ st with pending := true }, false)

/-- Run the throttle over a sequence of request times; returns the final
state and the times at which notifications actually fired. -/
def throttleRun (interval : Nat) (st : ThrottleState) :
    List Nat → ThrottleState × List Nat
  | [] => (st, [])
  | t :: ts =>
    let step := throttleStep interval st t
    let rest := throttleRun interval step.1 ts
    (rest.1, if step.2 then t :: rest.2 else rest.2)

/-- Modelled from the spec: the guaranteed terminal flush on batch
completion: it fires immediately, regardless of the window, and clears the
pending flag, superseding any pending throttled report. -/
def throttleFlush (st : ThrottleState) : ThrottleState × Bool :=
  ({ st with pending := false }, true)

end UtilityBot

namespace UtilityBot

theorem enqueue_some_result (s : Session) (t : Track) (h : s.currentTrack = some t)
    (ts : List Track) (f : Bool) :
    s.enqueue ts f = ({ s with queue := if f then ts ++ s.queue else s.queue ++ ts }, true) := by
  simp [Session.enqueue, h]

theorem enqueue_none_result (s : Session) (h : s.currentTrack = none)
    (ts : List Track) (f : Bool) :
    s.enqueue ts f =
      ({ s with currentTrack := ts.head?, queue := s.queue ++ ts.tail }, false) := by
  simp [Session.enqueue, h]

theorem enqueue_preserves_playing (s : Session) (ts : List Track) (f : Bool)
    (h : s.currentTrack.isSome) : ((s.enqueue ts f).1.currentTrack).isSome := by
  rcases hs : s.currentTrack with _ | t
  · rw [hs] at h; simp at h
  · simp [Session.enqueue, hs]

theorem runEnqueues_all_true (s : Session) (ops : List (List Track × Bool))
    (h : s.currentTrack.isSome) :
    (runEnqueues s ops).2 = List.replicate ops.length true := by
  induction ops generalizing s with
  | nil => simp [runEnqueues]
  | cons op ops ih =>
    obtain ⟨ts, f⟩ := op
    rcases hs : s.currentTrack with _ | t
    · rw [hs] at h; simp at h
    · simp only [runEnqueues, List.length_cons, List.replicate_succ, List.cons.injEq]
      refine ⟨by simp [Session.enqueue, hs], ?_⟩
      exact ih _ (enqueue_preserves_playing s ts f (by simp [hs]))

/-- C3: starting from an empty (Idle) Session, the first enqueue marks the
head of the enqueued tracks as currentTrack, its wasAlreadyPlaying result is
false, and every subsequent enqueue in the run (made while a track is
current) returns wasAlreadyPlaying = true. -/
theorem enqueue_first_marks_current (ts0 : List Track) (f0 : Bool)
    (ops : List (List Track × Bool)) (h : ts0 ≠ []) :
    (emptySession.enqueue ts0 f0).1.currentTrack = ts0.head? ∧
    ts0.head?.isSome ∧
    (runEnqueues emptySession ((ts0, f0) :: ops)).2 =
      false :: List.replicate ops.length true := by
  refine ⟨by simp [Session.enqueue, emptySession], ?_, ?_⟩
  · cases ts0 with
    | nil => exact absurd rfl h
    | cons a l => simp
  · simp only [runEnqueues, List.cons.injEq]
    refine ⟨by simp [Session.enqueue, emptySession], ?_⟩
    refine runEnqueues_all_true _ ops ?_
    rw [enqueue_none_result emptySession rfl ts0 f0]
    cases ts0 with
    | nil => exact absurd rfl h
    | cons a l => simp

theorem enqueue_first_marks_current_witness :
    let A : Track := ⟨"A", TrackVariant.YOUTUBE_VOD⟩
    let B : Track := ⟨"B", TrackVariant.YOUTUBE_VOD⟩
    (emptySession.enqueue [A, B] false).1.currentTrack = [A, B].head? ∧
    ([A, B] : List Track).head?.isSome ∧
    (runEnqueues emptySession [([A, B], false), ([B], true)]).2 =
      false :: List.replicate 1 true := by
  exact enqueue_first_marks_current [⟨"A", TrackVariant.YOUTUBE_VOD⟩,
    ⟨"B", TrackVariant.YOUTUBE_VOD⟩] false [([⟨"B", TrackVariant.YOUTUBE_VOD⟩], true)]
    (by simp)

/-- C4: while a track is current, pushToFront = true places new items
immediately after the current-playing position (front of the upcoming
queue), pushToFront = false places them at the tail, the current track is
unchanged, and the concrete example holds: enqueue [A,B,C] on an empty
Session then enqueue [D] with pushToFront gives queue [D,B,C] with A still
current. -/
theorem enqueue_pushToFront_position (s : Session) (t : Track)
    (h : s.currentTrack = some t) (ts : List Track) :
    (s.enqueue ts true).1.queue = ts ++ s.queue ∧
    (s.enqueue ts false).1.queue = s.queue ++ ts ∧
    (s.enqueue ts true).1.currentTrack = some t ∧
    (s.enqueue ts false).1.currentTrack = some t ∧
    (s.enqueue ts true).2 = true ∧
    (let A : Track := ⟨"A", TrackVariant.YOUTUBE_VOD⟩
     let B : Track := ⟨"B", TrackVariant.YOUTUBE_VOD⟩
     let C : Track := ⟨"C", TrackVariant.YOUTUBE_VOD⟩
     let D : Track := ⟨"D", TrackVariant.YOUTUBE_VOD⟩
     let s0 := (emptySession.enqueue [A, B, C] false).1
     let s1 := (s0.enqueue [D] true).1
     s0.currentTrack = some A ∧ s0.queue = [B, C] ∧
       s1.queue = [D, B, C] ∧ s1.currentTrack = some A) := by
  refine ⟨by simp [Session.enqueue, h], by simp [Session.enqueue, h],
    by simp [Session.enqueue, h], by simp [Session.enqueue, h],
    by simp [Session.enqueue, h], ?_⟩
  refine ⟨rfl, rfl, rfl, rfl⟩

theorem enqueue_pushToFront_position_witness :
    let E : Track := ⟨"E", TrackVariant.TWITCH_VOD⟩
    let F : Track := ⟨"F", TrackVariant.TWITCH_VOD⟩
    let s : Session := { currentTrack := some E, queue := [], shuffled := false, paused := false }
    (s.enqueue [F] true).1.queue = [F] ++ s.queue := by
  exact (enqueue_pushToFront_position
    { currentTrack := some ⟨"E", TrackVariant.TWITCH_VOD⟩, queue := [],
      shuffled := false, paused := false }
    ⟨"E", TrackVariant.TWITCH_VOD⟩ rfl [⟨"F", TrackVariant.TWITCH_VOD⟩]).1

/-- C7: shuffleRemaining permutes only the entries other than the currently
playing one: the current track is unchanged, it remains at position 0 of the
full play order both before and after, and the upcoming queue (and therefore
the full play order) is only permuted. -/
theorem shuffleRemaining_preserves_current (s : Session) (t : Track)
    (permute : List Track → List Track) (h : s.currentTrack = some t)
    (hp : ∀ l : List Track, (permute l).Perm l) :
    (s.shuffleRemaining permute).currentTrack = some t ∧
    s.fullQueue.head? = some t ∧
    (s.shuffleRemaining permute).fullQueue.head? = some t ∧
    ((s.shuffleRemaining permute).queue).Perm s.queue ∧
    ((s.shuffleRemaining permute).fullQueue).Perm s.fullQueue := by
  refine ⟨by simp [Session.shuffleRemaining, h], by simp [Session.fullQueue, h],
    by simp [Session.shuffleRemaining, Session.fullQueue, h], hp s.queue, ?_⟩
  simp only [Session.shuffleRemaining, Session.fullQueue, h]
  exact List.Perm.cons t (hp s.queue)

theorem shuffleRemaining_preserves_current_witness :
    let G : Track := ⟨"G", TrackVariant.YOUTUBE_VOD⟩
    let s : Session := { currentTrack := some G, queue := [], shuffled := false, paused := false }
    (s.shuffleRemaining id).currentTrack = some G := by
  exact (shuffleRemaining_preserves_current
    { currentTrack := some ⟨"G", TrackVariant.YOUTUBE_VOD⟩, queue := [],
      shuffled := false, paused := false }
    ⟨"G", TrackVariant.YOUTUBE_VOD⟩ id rfl (fun l => List.Perm.refl l)).1

theorem alookup_cons_self {α : Type} (l : List (String × α)) (k : String) (v : α) :
    alookup ((k, v) :: l) k = some v := by
  simp [alookup, List.find?]

theorem ensure_cache_eq (st : AuthState) (auth : String) :
    (ensureDiscordPromises st auth).1.cache = st.cache := by
  unfold ensureDiscordPromises
  cases alookup st.discordPromises auth <;> rfl

theorem ensure_stores (st : AuthState) (auth : String) :
    alookup (ensureDiscordPromises st auth).1.discordPromises auth =
      some (ensureDiscordPromises st auth).2 := by
  unfold ensureDiscordPromises
  cases h : alookup st.discordPromises auth with
  | none => exact alookup_cons_self st.discordPromises auth st.nextPromiseId
  | some pid => exact h

theorem ensure_idem (st : AuthState) (auth : String) :
    ensureDiscordPromises (ensureDiscordPromises st auth).1 auth =
      ensureDiscordPromises st auth := by
  have h := ensure_stores st auth
  unfold ensureDiscordPromises
  rw [show (match alookup st.discordPromises auth with
      | some pid => (st, pid)
      | none => ({ st with
          discordPromises := (auth, st.nextPromiseId) :: st.discordPromises,
          nextPromiseId := st.nextPromiseId + 1,
          upstreamCalls := st.upstreamCalls + 1 }, st.nextPromiseId)) =
      ensureDiscordPromises st auth from rfl, h]

/-- C5: the single-flight pattern of getUserFromAuthToken. On a cache miss
the caller stores the upstream promise pair in the shared map keyed by the
auth token; a second caller arriving before completion finds and awaits the
very same stored pair: its synchronous phase returns the same promise
identity with the state unchanged, so no duplicate upstream request pair is
issued (at most one pair for the whole group of concurrent callers). -/
theorem singleFlight_shared_promise (st : AuthState) (auth : String)
    (hmiss : alookup st.cache auth = none) :
    getUserPhase1 st auth =
      ((ensureDiscordPromises st auth).1, Sum.inr (ensureDiscordPromises st auth).2) ∧
    alookup (ensureDiscordPromises st auth).1.discordPromises auth =
      some (ensureDiscordPromises st auth).2 ∧
    getUserPhase1 (ensureDiscordPromises st auth).1 auth =
      ((ensureDiscordPromises st auth).1, Sum.inr (ensureDiscordPromises st auth).2) ∧
    (ensureDiscordPromises st auth).1.upstreamCalls ≤ st.upstreamCalls + 1 := by
  refine ⟨by simp [getUserPhase1, hmiss], ensure_stores st auth, ?_, ?_⟩
  · have hc : alookup (ensureDiscordPromises st auth).1.cache auth = none := by
      rw [ensure_cache_eq]; exact hmiss
    simp only [getUserPhase1, hc]
    rw [ensure_idem]
  · unfold ensureDiscordPromises
    cases alookup st.discordPromises auth with
    | none => exact Nat.le_refl _
    | some pid => exact Nat.le_succ _

theorem singleFlight_shared_promise_witness :
    getUserPhase1 emptyAuthState "tok" =
      ((ensureDiscordPromises emptyAuthState "tok").1,
        Sum.inr (ensureDiscordPromises emptyAuthState "tok").2) := by
  exact (singleFlight_shared_promise emptyAuthState "tok" rfl).1

/-- C8: when the upstream lookup for a token fails, the rejected promise
pair remains stored in the shared map (the delete runs only after a
successful await), the call rejects, and a subsequent call with the same
token finds the same stored pair, rejects again, and leaves the state
unchanged, issuing no new upstream request. -/
theorem failed_promise_retained (st : AuthState) (auth : String)
    (upstream : Nat → Except Unit (UserData × List GuildData))
    (botGuildIds : List String)
    (hmiss : alookup st.cache auth = none)
    (hfail : upstream (ensureDiscordPromises st auth).2 = Except.error ()) :
    getUserFromAuthToken st auth upstream botGuildIds =
      ((ensureDiscordPromises st auth).1, Except.error ()) ∧
    alookup (ensureDiscordPromises st auth).1.discordPromises auth =
      some (ensureDiscordPromises st auth).2 ∧
    getUserFromAuthToken (ensureDiscordPromises st auth).1 auth upstream botGuildIds =
      ((ensureDiscordPromises st auth).1, Except.error ()) ∧
    (ensureDiscordPromises st auth).1.upstreamCalls ≤ st.upstreamCalls + 1 := by
  obtain ⟨h1, h2, h3, h4⟩ := singleFlight_shared_promise st auth hmiss
  refine ⟨?_, h2, ?_, h4⟩
  · unfold getUserFromAuthToken
    rw [hmiss, hfail]
  · have hc : alookup (ensureDiscordPromises st auth).1.cache auth = none := by
      rw [ensure_cache_eq]; exact hmiss
    unfold getUserFromAuthToken
    rw [hc, ensure_idem st auth, hfail]

theorem failed_promise_retained_witness :
    getUserFromAuthToken emptyAuthState "tok" (fun _ => Except.error ()) [] =
      ((ensureDiscordPromises emptyAuthState "tok").1, Except.error ()) := by
  exact (failed_promise_retained emptyAuthState "tok" (fun _ => Except.error ()) []
    rfl rfl).1

/-- C9: on a successful lookup the returned User holds exactly those guilds
of the upstream /users/@me/guilds response whose id is in the bot client
guild cache (projected to id, name, icon); a guild the bot is not a member
of never appears in the result. -/
theorem user_guilds_filtered_by_bot_cache (st : AuthState) (auth : String)
    (upstream : Nat → Except Unit (UserData × List GuildData))
    (botGuildIds : List String) (ud : UserData) (gd : List GuildData)
    (hmiss : alookup st.cache auth = none)
    (hok : upstream (ensureDiscordPromises st auth).2 = Except.ok (ud, gd)) :
    (getUserFromAuthToken st auth upstream botGuildIds).2 =
      Except.ok (buildUser ud gd botGuildIds) ∧
    (∀ g : Guild, g ∈ (buildUser ud gd botGuildIds).guilds ↔
      ∃ x : GuildData, x ∈ gd ∧ botGuildIds.contains x.id = true ∧
        g = { id := x.id, name := x.name, icon := x.icon }) ∧
    (∀ g : Guild, g ∈ (buildUser ud gd botGuildIds).guilds →
      botGuildIds.contains g.id = true) := by
  have hmem : ∀ g : Guild, g ∈ (buildUser ud gd botGuildIds).guilds ↔
      ∃ x : GuildData, x ∈ gd ∧ botGuildIds.contains x.id = true ∧
        g = { id := x.id, name := x.name, icon := x.icon } := by
    intro g
    simp only [buildUser, List.mem_map, List.mem_filter]
    constructor
    · rintro ⟨x, ⟨hx, hc⟩, rfl⟩
      exact ⟨x, hx, hc, rfl⟩
    · rintro ⟨x, hx, hc, rfl⟩
      exact ⟨x, ⟨hx, hc⟩, rfl⟩
  refine ⟨?_, hmem, ?_⟩
  · unfold getUserFromAuthToken
    rw [hmiss, hok]
  · intro g hg
    obtain ⟨x, _, hc, rfl⟩ := (hmem g).mp hg
    exact hc

theorem user_guilds_filtered_by_bot_cache_witness :
    (getUserFromAuthToken emptyAuthState "tok"
      (fun _ => Except.ok (⟨"u", "name", "0001", "av"⟩,
        [⟨"g1", "Guild1", "i1"⟩, ⟨"g2", "Guild2", "i2"⟩])) ["g1"]).2 =
      Except.ok (buildUser ⟨"u", "name", "0001", "av"⟩
        [⟨"g1", "Guild1", "i1"⟩, ⟨"g2", "Guild2", "i2"⟩] ["g1"]) := by
  exact (user_guilds_filtered_by_bot_cache emptyAuthState "tok"
    (fun _ => Except.ok (⟨"u", "name", "0001", "av"⟩,
      [⟨"g1", "Guild1", "i1"⟩, ⟨"g2", "Guild2", "i2"⟩]))
    ["g1"] ⟨"u", "name", "0001", "av"⟩
    [⟨"g1", "Guild1", "i1"⟩, ⟨"g2", "Guild2", "i2"⟩] rfl rfl).1

theorem set_keys (r : SessionRegistry) (g : String) (s : Session) :
    (r.set g s).sessions.map Prod.fst = r.sessions.map Prod.fst := by
  unfold SessionRegistry.set
  simp only [List.map_map]
  refine List.map_congr_left ?_
  intro p _
  by_cases hp : p.1 = g
  · simp [hp, Function.comp]
  · simp [hp, Function.comp]

theorem get_none_not_mem (r : SessionRegistry) (g : String)
    (h : r.get g = none) : g ∉ r.sessions.map Prod.fst := by
  unfold SessionRegistry.get at h
  rw [Option.map_eq_none', List.find?_eq_none] at h
  intro hmem
  obtain ⟨p, hp, hfst⟩ := List.mem_map.mp hmem
  exact absurd (by simpa using hfst) (by simpa using h p hp)

theorem get_set_self (r : SessionRegistry) (g : String) (s0 s : Session)
    (h : r.get g = some s0) : (r.set g s).get g = some s := by
  rcases r with ⟨l⟩
  unfold SessionRegistry.get SessionRegistry.set at *
  simp only at h ⊢
  induction l with
  | nil => simp [List.find?] at h
  | cons p l ih =>
    by_cases hp : p.1 = g
    · simp [List.find?, hp]
    · rw [List.find?_cons_of_neg _ (by simpa using hp)] at h
      simp only [List.map_cons, if_neg hp]
      rw [List.find?_cons_of_neg _ (by simpa using hp)]
      exact ih h

theorem create_keys_of_get_none (r : SessionRegistry) (g : String) (fresh : Session)
    (h : r.get g = none) :
    (r.create g fresh).1.sessions.map Prod.fst = g :: r.sessions.map Prod.fst := by
  unfold SessionRegistry.create
  rw [h]
  simp

theorem create_keys_nodup (r : SessionRegistry) (g : String) (fresh : Session)
    (huniq : (r.sessions.map Prod.fst).Nodup) :
    ((r.create g fresh).1.sessions.map Prod.fst).Nodup := by
  unfold SessionRegistry.create
  cases h : r.get g with
  | some s => exact huniq
  | none =>
    simp only [List.map_cons, List.nodup_cons]
    exact ⟨get_none_not_mem r g h, huniq⟩

theorem play_registry_keys (reg : SessionRegistry) (g : String) (hasUser : Bool)
    (vc : Option (String × Bool)) (inputs : PlayInputs) (fresh : Session)
    (permute : List Track → List Track) :
    (play reg g hasUser vc inputs fresh permute).1.sessions.map Prod.fst =
      reg.sessions.map Prod.fst ∨
    (reg.get g = none ∧
      (play reg g hasUser vc inputs fresh permute).1.sessions.map Prod.fst =
        g :: reg.sessions.map Prod.fst) := by
  unfold play
  cases hasUser with
  | false => left; rfl
  | true =>
    cases vc with
    | none => left; rfl
    | some c =>
      obtain ⟨cid, joinable⟩ := c
      cases joinable with
      | false => left; rfl
      | true =>
        cases hget : reg.get g with
        | some s0 =>
          left
          simp only [Bool.not_true, Bool.false_eq_true, if_false, hget]
          by_cases h1 : inputs.vodLink.isSome <;>
            by_cases h2 : inputs.streamLink.isSome <;>
            by_cases h3 : inputs.queryStr.isSome <;>
            simp [h1, h2, h3, set_keys]
        | none =>
          simp only [Bool.not_true, Bool.false_eq_true, if_false, hget]
          by_cases hn :
              ([inputs.vodLink, inputs.streamLink, inputs.queryStr].filterMap id).length = 0
          · left; simp [hn]
          · right
            refine ⟨trivial, ?_⟩
            simp only [hn, if_false]
            rw [set_keys, create_keys_of_get_none reg g fresh hget]

/-- C6: at most one Session exists per guild. create on a guild with an
existing session returns that session and never registers a second one;
create preserves the no-duplicate-keys invariant; and the play flow calls
create only after get returned none: when a session exists, play leaves the
set of registered guilds unchanged, and in every case play preserves the
invariant. -/
theorem sessionRegistry_at_most_one_per_guild (r : SessionRegistry) (g : String)
    (fresh s0 : Session) (hasUser : Bool) (vc : Option (String × Bool))
    (inputs : PlayInputs) (permute : List Track → List Track)
    (huniq : (r.sessions.map Prod.fst).Nodup) :
    ((r.create g fresh).1.sessions.map Prod.fst).Nodup ∧
    (r.get g = some s0 → r.create g fresh = (r, s0)) ∧
    (r.get g = some s0 →
      (play r g hasUser vc inputs fresh permute).1.sessions.map Prod.fst =
        r.sessions.map Prod.fst) ∧
    ((play r g hasUser vc inputs fresh permute).1.sessions.map Prod.fst).Nodup := by
  refine ⟨create_keys_nodup r g fresh huniq, ?_, ?_, ?_⟩
  · intro hget
    unfold SessionRegistry.create
    rw [hget]
  · intro hget
    rcases play_registry_keys r g hasUser vc inputs fresh permute with h | ⟨hnone, _⟩
    · exact h
    · rw [hget] at hnone; exact absurd hnone (by simp)
  · rcases play_registry_keys r g hasUser vc inputs fresh permute with h | ⟨hnone, hkeys⟩
    · rw [h]; exact huniq
    · rw [hkeys]
      simp only [List.nodup_cons]
      exact ⟨get_none_not_mem r g hnone, huniq⟩

theorem sessionRegistry_at_most_one_per_guild_witness :
    ((SessionRegistry.create ⟨[("g", emptySession)]⟩ "g" emptySession).1.sessions.map
      Prod.fst).Nodup ∧
    SessionRegistry.create ⟨[("g", emptySession)]⟩ "g" emptySession =
      (⟨[("g", emptySession)]⟩, emptySession) := by
  have h := sessionRegistry_at_most_one_per_guild ⟨[("g", emptySession)]⟩ "g"
    emptySession emptySession true none
    ⟨none, none, none, false, false⟩ id (by simp)
  exact ⟨h.1, h.2.1 (by rfl)⟩

/-- C10: a play invocation with no link, no stream link and no query, made
by a resolved user in a joinable voice channel: when a session exists for
the guild the reply is Resumed and the stored session keeps its current
track and (up to the requested shuffle permutation) its queue contents with
the paused flag cleared and nothing enqueued; when no session exists the
reply is the argument-required error and the registry is unchanged (no
session is created). -/
theorem play_noArgs_resume_or_reject (r : SessionRegistry) (g : String)
    (cid : String) (inputs : PlayInputs) (fresh s0 : Session)
    (permute : List Track → List Track)
    (hlink : inputs.vodLink = none) (hstream : inputs.streamLink = none)
    (hquery : inputs.queryStr = none)
    (hp : ∀ l : List Track, (permute l).Perm l) :
    (r.get g = some s0 →
      (play r g true (some (cid, true)) inputs fresh permute).2 =
        PlayOutcome.reply "Resumed." ∧
      ∀ s : Session,
        (play r g true (some (cid, true)) inputs fresh permute).1.get g = some s →
        s.currentTrack = s0.currentTrack ∧ s.queue.Perm s0.queue ∧
          s.paused = false ∧ s.queue.length = s0.queue.length) ∧
    (r.get g = none →
      play r g true (some (cid, true)) inputs fresh permute =
        (r, PlayOutcome.reply "You must provide at least one argument.")) := by
  constructor
  · intro hget
    have hplay : play r g true (some (cid, true)) inputs fresh permute =
        (r.set g (if inputs.shuffle then (s0.resume).shuffle permute else s0.resume),
          PlayOutcome.reply "Resumed.") := by
      unfold play
      simp only [Bool.not_true, Bool.false_eq_true, if_false, hget, hlink, hstream,
        hquery, Option.isSome_none]
    have hs2 : ∀ s2 : Session,
        s2 = (if inputs.shuffle then (s0.resume).shuffle permute else s0.resume) →
        s2.currentTrack = s0.currentTrack ∧ s2.queue.Perm s0.queue ∧
          s2.paused = false ∧ s2.queue.length = s0.queue.length := by
      intro s2 hs2
      subst hs2
      by_cases hsh : inputs.shuffle
      · simp only [hsh, if_true]
        refine ⟨rfl, hp s0.queue, rfl, (hp s0.queue).length_eq⟩
      · simp only [hsh, if_false]
        exact ⟨rfl, List.Perm.refl _, rfl, rfl⟩
    constructor
    · rw [hplay]
    · intro s hs
      rw [hplay] at hs
      rw [get_set_self r g s0 _ hget] at hs
      exact hs2 s (Option.some_injective _ hs.symm)
  · intro hget
    unfold play
    simp only [Bool.not_true, Bool.false_eq_true, if_false, hget, hlink, hstream,
      hquery, List.filterMap]
    rfl

theorem play_noArgs_resume_or_reject_witness :
    (play ⟨[("g", emptySession)]⟩ "g" true (some ("vc", true))
      ⟨none, none, none, false, false⟩ emptySession id).2 =
      PlayOutcome.reply "Resumed." := by
  exact ((play_noArgs_resume_or_reject ⟨[("g", emptySession)]⟩ "g" "vc"
    ⟨none, none, none, false, false⟩ emptySession emptySession id
    rfl rfl rfl (fun l => List.Perm.refl l)).1 (by rfl)).1

theorem enqueue_single_fullQueue (s : Session) (t : Track) (hwf : Session.WF s) :
    (s.enqueue [t] false).1.fullQueue = s.fullQueue ++ [t] ∧
    Session.WF (s.enqueue [t] false).1 := by
  rcases hs : s.currentTrack with _ | c
  · have hq : s.queue = [] := hwf hs
    constructor
    · simp [Session.enqueue, hs, Session.fullQueue, hq]
    · intro h
      simp [Session.enqueue, hs] at h
  · constructor
    · simp [Session.enqueue, hs, Session.fullQueue]
    · intro h
      simp [Session.enqueue, hs] at h

theorem filterMap_length_add_fails (resolve : String → Option Track)
    (queries : List String) :
    (queries.filterMap resolve).length +
      (queries.filter (fun q => (resolve q).isNone)).length = queries.length := by
  induction queries with
  | nil => rfl
  | cons q qs ih =>
    cases h : resolve q with
    | none =>
      simp [List.filterMap_cons, h, List.filter_cons]
      omega
    | some t =>
      simp [List.filterMap_cons, h, List.filter_cons]
      omega

theorem pipelineAux_spec (resolve : String → Option Track) (total : Nat) :
    ∀ (qs : List String) (s : Session) (resolved : Nat), Session.WF s →
    (pipelineAux resolve total s resolved qs).1.fullQueue =
      s.fullQueue ++ qs.filterMap resolve ∧
    (pipelineAux resolve total s resolved qs).2.1 =
      resolved + (qs.filterMap resolve).length ∧
    (pipelineAux resolve total s resolved qs).2.2.getLast? =
      some ⟨resolved + (qs.filterMap resolve).length, total, true⟩ ∧
    ((pipelineAux resolve total s resolved qs).2.2.filter
      (fun e => e.completed)).length = 1 := by
  intro qs
  induction qs with
  | nil =>
    intro s resolved hwf
    refine ⟨by simp [pipelineAux], by simp [pipelineAux], by simp [pipelineAux], ?_⟩
    simp [pipelineAux, List.filter]
  | cons q qs ih =>
    intro s resolved hwf
    cases hq : resolve q with
    | none =>
      have h := ih s resolved hwf
      simp only [pipelineAux, hq, List.filterMap_cons]
      exact h
    | some t =>
      obtain ⟨hfull, hwf1⟩ := enqueue_single_fullQueue s t hwf
      have h := ih (s.enqueue [t] false).1 (resolved + 1) hwf1
      obtain ⟨h1, h2, h3, h4⟩ := h
      have hlen : resolved + 1 + (qs.filterMap resolve).length =
          resolved + ((q :: qs).filterMap resolve).length := by
        simp only [List.filterMap_cons, hq, List.length_cons]
        omega
      refine ⟨?_, ?_, ?_, ?_⟩
      · simp only [pipelineAux, hq]
        rw [h1, hfull, List.filterMap_cons, hq]
        simp
      · simp only [pipelineAux, hq]
        rw [h2, hlen]
      · simp only [pipelineAux, hq]
        have hne : (pipelineAux resolve total (s.enqueue [t] false).1
            (resolved + 1) qs).2.2 ≠ [] := by
          intro hnil
          rw [hnil] at h3
          simp at h3
        cases hrest : (pipelineAux resolve total (s.enqueue [t] false).1
            (resolved + 1) qs).2.2 with
        | nil => exact absurd hrest hne
        | cons e es =>
          rw [List.getLast?_cons_cons]
          rw [hrest] at h3
          rw [h3, hlen]
      · simp only [pipelineAux, hq, List.filter_cons]
        simpa using h4

/-- C1: a resolution batch of N queries of which K fail enqueues exactly
N − K Tracks to the target Session, appended in the original query order,
and the terminal progress report is issued exactly once, as the last
report, with completed = true and resolvedCount = N − K. -/
theorem pipeline_batch_order_and_final_report (resolve : String → Option Track)
    (queries : List String) (s : Session) (hwf : Session.WF s) :
    (TrackResolutionPipeline.start resolve queries s).1.fullQueue =
      s.fullQueue ++ queries.filterMap resolve ∧
    (queries.filterMap resolve).length =
      queries.length - (queries.filter (fun q => (resolve q).isNone)).length ∧
    (queries.filterMap resolve).length +
      (queries.filter (fun q => (resolve q).isNone)).length = queries.length ∧
    (TrackResolutionPipeline.start resolve queries s).2.2.getLast? =
      some ⟨(queries.filterMap resolve).length, queries.length, true⟩ ∧
    ((TrackResolutionPipeline.start resolve queries s).2.2.filter
      (fun e => e.completed)).length = 1 := by
  obtain ⟨h1, h2, h3, h4⟩ := pipelineAux_spec resolve queries.length queries s 0 hwf
  have hk := filterMap_length_add_fails resolve queries
  refine ⟨h1, by omega, hk, ?_, h4⟩
  rw [TrackResolutionPipeline.start, h3]
  simp

theorem pipeline_batch_order_and_final_report_witness :
    (TrackResolutionPipeline.start
      (fun q => if q = "ok" then some (⟨"ok", TrackVariant.YOUTUBE_VOD⟩ : Track) else none)
      ["ok", "bad"] emptySession).2.2.getLast? =
      some ⟨((["ok", "bad"] : List String).filterMap
          (fun q => if q = "ok" then some (⟨"ok", TrackVariant.YOUTUBE_VOD⟩ : Track)
            else none)).length,
        (["ok", "bad"] : List String).length, true⟩ := by
  exact (pipeline_batch_order_and_final_report
    (fun q => if q = "ok" then some (⟨"ok", TrackVariant.YOUTUBE_VOD⟩ : Track) else none)
    ["ok", "bad"] emptySession (fun _ => rfl)).2.2.2.1

instance sepIsTrans (interval : Nat) :
    IsTrans Nat (fun a b : Nat => a + interval ≤ b) :=
  ⟨by intro a b c h1 h2; omega⟩

theorem throttleRun_sep (interval : Nat) :
    ∀ (ts : List Nat) (st : ThrottleState),
    List.Sorted (· ≤ ·) ts →
    (∀ t0, st.lastFire = some t0 → ∀ u ∈ ts, t0 ≤ u) →
    List.Chain' (fun a b : Nat => a + interval ≤ b) (throttleRun interval st ts).2 ∧
    (∀ t0, st.lastFire = some t0 →
      ∀ f ∈ (throttleRun interval st ts).2, t0 + interval ≤ f) := by
  intro ts
  induction ts with
  | nil =>
    intro st hs hb
    refine ⟨List.chain'_nil, ?_⟩
    intro t0 _ f hf
    simp [throttleRun] at hf
  | cons t ts ih =>
    intro st hs hb
    rw [List.sorted_cons] at hs
    obtain ⟨hts, hsorted⟩ := hs
    rcases hlf : st.lastFire with _ | t0
    · -- no notification fired yet: this one fires now
      have hstep : throttleStep interval st t =
          ({ lastFire := some t, pending := false }, true) := by
        unfold throttleStep
        rw [hlf]
      have hrec := ih { lastFire := some t, pending := false } hsorted
        (by intro u hu v hv; cases hu; exact hts v hv)
      obtain ⟨hchain, hsep⟩ := hrec
      have hfires : (throttleRun interval st (t :: ts)).2 =
          t :: (throttleRun interval { lastFire := some t, pending := false } ts).2 := by
        simp [throttleRun, hstep]
      constructor
      · rw [hfires, List.chain'_cons']
        refine ⟨?_, hchain⟩
        intro h hh
        refine hsep t rfl h ?_
        exact List.mem_of_mem_head? hh
      · intro u hu
        exact absurd hu (by simp)
    · have ht0t : t0 ≤ t := hb t0 hlf t (List.mem_cons_self t ts)
      by_cases hfire : t0 + interval ≤ t
      · have hstep : throttleStep interval st t =
            ({ lastFire := some t, pending := false }, true) := by
          unfold throttleStep
          rw [hlf]
          simp [hfire]
        have hrec := ih { lastFire := some t, pending := false } hsorted
          (by intro u hu v hv; cases hu; exact hts v hv)
        obtain ⟨hchain, hsep⟩ := hrec
        have hfires : (throttleRun interval st (t :: ts)).2 =
            t :: (throttleRun interval { lastFire := some t, pending := false } ts).2 := by
          simp [throttleRun, hstep]
        constructor
        · rw [hfires, List.chain'_cons']
          refine ⟨?_, hchain⟩
          intro h hh
          refine hsep t rfl h ?_
          exact List.mem_of_mem_head? hh
        · intro u hu f hf
          injection hu with hu
          rw [hfires] at hf
          rcases List.mem_cons.mp hf with hft | hfrest
          · omega
          · have hs2 := hsep t rfl f hfrest
            omega
      · have hstep : throttleStep interval st t = ({ st with pending := true }, false) := by
          unfold throttleStep
          rw [hlf]
          simp [hfire]
        have hb1 : ∀ u, ({ st with pending := true } : ThrottleState).lastFire = some u →
            ∀ v ∈ ts, u ≤ v := by
          intro u hu v hv
          simp only [hlf] at hu
          injection hu with hu
          rw [← hu]
          exact hb t0 hlf v (List.mem_cons_of_mem t hv)
        have hrec := ih { st with pending := true } hsorted hb1
        obtain ⟨hchain, hsep⟩ := hrec
        have hfires : (throttleRun interval st (t :: ts)).2 =
            (throttleRun interval { st with pending := true } ts).2 := by
          simp [throttleRun, hstep]
        constructor
        · rw [hfires]
          exact hchain
        · intro u hu f hf
          injection hu with hu
          rw [hfires] at hf
          have hs2 := hsep t0 (by simp [hlf]) f hf
          omega

theorem pairwise_sep_window (interval w : Nat) (l : List Nat)
    (h : List.Pairwise (fun a b : Nat => a + interval ≤ b) l) :
    (l.filter (fun t => decide (w ≤ t) && decide (t < w + interval))).length ≤ 1 := by
  induction l with
  | nil => simp
  | cons a l ih =>
    rw [List.pairwise_cons] at h
    by_cases ha : w ≤ a ∧ a < w + interval
    · have hl : l.filter (fun t => decide (w ≤ t) && decide (t < w + interval)) = [] := by
        rw [List.filter_eq_nil_iff]
        intro b hb
        have hab := h.1 b hb
        simp only [Bool.and_eq_true, decide_eq_true_eq, not_and]
        intro _
        omega
      rw [List.filter_cons]
      have hcondT : (decide (w ≤ a) && decide (a < w + interval)) = true := by
        simp [ha.1, ha.2]
      rw [hcondT, hl]
      simp
    · rw [List.filter_cons]
      have hcond : (decide (w ≤ a) && decide (a < w + interval)) = false := by
        rcases Decidable.not_and_iff_or_not.mp ha with hc | hc
        · simp [hc]
        · simp [hc]
      rw [hcond]
      simp only [Bool.false_eq_true, if_false]
      exact ih h.2

/-- C2: over any monotone sequence of progress-request times, consecutive
outward notifications are at least one interval apart, hence any interval
window contains at most one notification; and the terminal flush on batch
completion always fires immediately and clears the pending flag,
superseding any pending throttled report. -/
theorem throttle_rate_and_final_flush (interval : Nat) (times : List Nat)
    (hs : List.Sorted (· ≤ ·) times) :
    List.Chain' (fun a b : Nat => a + interval ≤ b)
      (throttleRun interval freshThrottle times).2 ∧
    (∀ w : Nat, ((throttleRun interval freshThrottle times).2.filter
      (fun t => decide (w ≤ t) && decide (t < w + interval))).length ≤ 1) ∧
    (throttleFlush (throttleRun interval freshThrottle times).1).2 = true ∧
    (throttleFlush (throttleRun interval freshThrottle times).1).1.pending = false := by
  have hchain := (throttleRun_sep interval times freshThrottle hs
    (by intro t0 h; exact absurd h (by simp [freshThrottle]))).1
  have hpair : List.Pairwise (fun a b : Nat => a + interval ≤ b)
      (throttleRun interval freshThrottle times).2 := by
    rw [List.chain'_iff_pairwise] at hchain
    exact hchain
  exact ⟨hchain, fun w => pairwise_sep_window interval w _ hpair, rfl, rfl⟩

theorem throttle_rate_and_final_flush_witness :
    (throttleFlush (throttleRun 5 freshThrottle [0, 1, 2, 10]).1).2 = true ∧
    (throttleRun 5 freshThrottle [0, 1, 2, 10]).2 = [0, 10] := by
  refine ⟨(throttle_rate_and_final_flush 5 [0, 1, 2, 10] (by decide)).2.2.1, ?_⟩
  rfl

end UtilityBot
